import Mathlib

/-!
Verification of the CV-parsing core in `cv_parser.py`.

The pure text-processing pipeline of the source file is shallowly embedded
here: `normalize_section_header`, `identify_sections`, the five field
extractors, `extract_structured_data`, and the file-level entry point
`process_file`.  Python strings are modeled as Lean `String`s restricted to
the ASCII behavior of `upper`, `lower`, `istitle`, `isupper`, and the regular
expression character classes (every concrete input in the source and in the
specification scenarios is ASCII).  The `difflib.get_close_matches` fuzzy
matcher used by the header normalizer is modeled faithfully, including the
`SequenceMatcher` longest-matching-block recursion.  The external OCR / PDF
collaborators (`fitz`, `pytesseract`, `cv2`) are out of scope per the
specification; `process_file` receives their result as an explicit argument.
-/

set_option maxRecDepth 4000

open scoped List

/-! ## Python string primitives (ASCII model) -/

/-- The characters stripped by Python `str.strip()` and matched by the regex
class `\s` (ASCII fragment). -/
def pySpaceCls (c : Char) : Bool :=
  c == ' ' || c == '\t' || c == '\n' || c == '\r' || c == '\x0b' || c == '\x0c'

/-- Python `str.strip()` on a character list. -/
def pyStripList (cs : List Char) : List Char :=
  ((cs.dropWhile pySpaceCls).reverse.dropWhile pySpaceCls).reverse

/-- Python `str.strip()`. -/
def pyStrip (s : String) : String :=
  ⟨pyStripList s.data⟩

/-- Python `str.upper()` (ASCII model). -/
def pyUpper (s : String) : String :=
  ⟨s.data.map Char.toUpper⟩

/-- Python `str.lower()` (ASCII model). -/
def pyLower (s : String) : String :=
  ⟨s.data.map Char.toLower⟩

/-- Helper for Python `str.split()` with no separator: split on runs of
whitespace, discarding empty pieces.  `acc` holds the current word reversed. -/
def pySplitWsAux : List Char → List Char → List (List Char)
  | [], acc => if acc.isEmpty then [] else [acc.reverse]
  | c :: rest, acc =>
    if pySpaceCls c then
      if acc.isEmpty then pySplitWsAux rest [] else acc.reverse :: pySplitWsAux rest []
    else pySplitWsAux rest (c :: acc)

/-- Python `str.split()` (no separator). -/
def pySplitWs (s : String) : List String :=
  (pySplitWsAux s.data []).map fun cs => ⟨cs⟩

/-- Python `len(line.split())` - the word count used throughout the source. -/
def wordCount (s : String) : Nat :=
  (pySplitWsAux s.data []).length

/-- Python `str.isupper()` (ASCII model): at least one cased character and no
lowercase character. -/
def pyIsUpper (s : String) : Bool :=
  s.data.any Char.isAlpha && s.data.all fun c => !c.isLower

/-- Worker for Python `str.istitle()`: `found` records whether a cased
character was seen, `prev` whether the previous character was cased. -/
def pyIsTitleAux : Bool → Bool → List Char → Bool
  | found, _, [] => found
  | found, prev, c :: rest =>
    if c.isUpper then
      if prev then false else pyIsTitleAux true true rest
    else if c.isLower then
      if prev then pyIsTitleAux true true rest else false
    else
      pyIsTitleAux found false rest

/-- Python `str.istitle()` (ASCII model). -/
def pyIsTitle (s : String) : Bool :=
  pyIsTitleAux false false s.data

/-- Split on each occurrence of a one-character separator or class, as both
Python `str.split(sep)` with a one-character separator and
`re.split(r'[...]', text)` do; empty pieces are kept.  `acc` holds the
current piece reversed. -/
def splitClsAux (f : Char → Bool) : List Char → List Char → List (List Char)
  | [], acc => [acc.reverse]
  | c :: rest, acc =>
    if f c then acc.reverse :: splitClsAux f rest []
    else splitClsAux f rest (c :: acc)

/-- Splitting a string on a one-character class. -/
def pySplitCls (f : Char → Bool) (s : String) : List String :=
  (splitClsAux f s.data []).map fun cs => ⟨cs⟩

/-- A single word of the source's title-case pattern: `[A-Z][a-z]+`. -/
def titleWordOk : List Char → Bool
  | [] => false
  | c :: rest => c.isUpper && !rest.isEmpty && rest.all Char.isLower

/-- The anchored regex `^[A-Z][a-z]+( [A-Z][a-z]+)*$` from the source: words
of the form `[A-Z][a-z]+` separated by single spaces.  (The lines it is
applied to are stripped, hence contain no newline, so `$` is plain
end-of-string.) -/
def titleRegexOk (s : String) : Bool :=
  (splitClsAux (fun c => c == ' ') s.data []).all titleWordOk

/-- Python substring containment (`sub in s`). -/
def subOccurs : List Char → List Char → Bool
  | needle, hay =>
    needle.isPrefixOf hay ||
      match hay with
      | [] => false
      | _ :: t => subOccurs needle t

/-- Python `sub in s` on strings. -/
def pyContains (sub s : String) : Bool :=
  subOccurs sub.data s.data

/-- Case-insensitive search for any of the literal alternatives, as performed
by `re.search('(w1|w2|...)', line, re.IGNORECASE)`. -/
def containsAnyCI (words : List String) (line : String) : Bool :=
  words.any fun w => subOccurs (w.data.map Char.toUpper) (line.data.map Char.toUpper)

/-- The shared line preprocessing
`[line.strip() for line in text.split('\n') if line.strip()]`. -/
def pyLines (text : String) : List String :=
  ((pySplitCls (fun c => c == '\n') text).map pyStrip).filter fun l => l != ""

/-- Python `sep.join(xs)` on character lists. -/
def joinSep (sep : List Char) : List (List Char) → List Char
  | [] => []
  | [x] => x
  | x :: y :: rest => x ++ sep ++ joinSep sep (y :: rest)

/-- Python `sep.join(xs)` on strings. -/
def pyJoin (sep : String) (xs : List String) : String :=
  ⟨joinSep sep.data (xs.map fun x => x.data)⟩

/-- Python `s.startswith(pre)`. -/
def pyStartsWith (pre s : String) : Bool :=
  pre.data.isPrefixOf s.data

/-- Python slicing `s[n:]` (by code points). -/
def pyDropChars (n : Nat) (s : String) : String :=
  ⟨s.data.drop n⟩

/-! ## Regular expressions

Every regex in the source is a sequence of character classes with counted
repetition (literals are classes matched exactly once); alternation occurs
only at top level and is expanded into one item list per alternative.  The
matcher below is a complete backtracking matcher for such sequences, so it
agrees with Python's leftmost / greedy semantics. -/

/-- One regex item: a character class repeated between `lo` and `hi` times
(`hi = none` means unbounded). -/
structure RItem where
  cls : Char → Bool
  lo : Nat
  hi : Option Nat

/-- Length of the maximal prefix of `s` inside the class `f`. -/
def runLen (f : Char → Bool) : List Char → Nat
  | [] => 0
  | c :: rest => if f c then runLen f rest + 1 else 0

/-- Greedy backtracking loop: try to give the current item `j` characters
(counting down from the greedy maximum to `lo`), matching the continuation
`k` on the remaining input. -/
def matchFrom (k : List Char → Option Nat) (lo : Nat) (s : List Char) : Nat → Option Nat
  | 0 =>
    if 0 < lo then none
    else
      match k s with
      | some m => some m
      | none => none
  | j + 1 =>
    if j + 1 < lo then none
    else
      match k (s.drop (j + 1)) with
      | some m => some (j + 1 + m)
      | none => matchFrom k lo s j

/-- Match an item sequence against a prefix of `s`; returns the number of
characters consumed by the leftmost-greedy match, if any. -/
def matchSeq : List RItem → List Char → Option Nat
  | [], _ => some 0
  | it :: rest, s =>
    let r := runLen it.cls s
    let cap := match it.hi with
      | some m => Nat.min r m
      | none => r
    matchFrom (fun t => matchSeq rest t) it.lo s cap

/-- Model of `re.findall`: non-overlapping leftmost matches, scanning left to right.
The fuel only bounds the recursion depth: every recursive call is on a
strictly shorter list with one unit of fuel less, so the wrapper's
`s.length` is always sufficient and the out-of-fuel branch is unreachable. -/
def findallAux (items : List RItem) : Nat → List Char → List (List Char)
  | _, [] => []
  | 0, _ :: _ => []
  | fuel + 1, c :: rest =>
    match matchSeq items (c :: rest) with
    | none => findallAux items fuel rest
    | some n =>
      if n = 0 then [] :: findallAux items fuel rest
      else (c :: rest).take n :: findallAux items fuel ((c :: rest).drop n)

/-- Model of `re.findall` on strings. -/
def pyFindall (items : List RItem) (s : String) : List String :=
  (findallAux items s.data.length s.data).map fun cs => ⟨cs⟩

/-- Model of `re.search`: the text of the leftmost match, if any. -/
def searchAux (items : List RItem) : List Char → Option (List Char)
  | [] => match matchSeq items [] with
    | some _ => some []
    | none => none
  | c :: rest =>
    match matchSeq items (c :: rest) with
    | some n => some ((c :: rest).take n)
    | none => searchAux items rest

/-- Model of `re.search` on strings. -/
def pySearch (items : List RItem) (s : String) : Option String :=
  (searchAux items s.data).map fun cs => ⟨cs⟩

/-- Model of `re.match`: does the pattern match at the start of the string? -/
def pyMatchStart (items : List RItem) (s : String) : Bool :=
  (matchSeq items s.data).isSome

/-- A literal character. -/
def lit (c : Char) : RItem := ⟨fun d => d == c, 1, some 1⟩

/-- A class matched exactly once. -/
def cls1 (f : Char → Bool) : RItem := ⟨f, 1, some 1⟩

/-- A class repeated at least `lo` times (`{lo,}`; `rep f 1` is `+`). -/
def rep (f : Char → Bool) (lo : Nat) : RItem := ⟨f, lo, none⟩

/-- A class repeated between `lo` and `hi` times (`{lo,hi}`). -/
def repB (f : Char → Bool) (lo hi : Nat) : RItem := ⟨f, lo, some hi⟩

/-- An optional class (`?`). -/
def opt (f : Char → Bool) : RItem := ⟨f, 0, some 1⟩

/-- A literal string. -/
def litStr (s : String) : List RItem := s.data.map lit

/-- A case-insensitive literal string (ASCII model). -/
def litStrCI (s : String) : List RItem :=
  s.data.map fun c => cls1 fun d => d.toUpper == c.toUpper

/-- The regex class `\w` (ASCII fragment). -/
def wordCls (c : Char) : Bool := c.isAlphanum || c == '_'

/-- The class `[\w\.-]` of the email pattern. -/
def emailCls (c : Char) : Bool := wordCls c || c == '.' || c == '-'

/-- The class `[\d\s\-\(\)]` of the phone pattern. -/
def phoneMidCls (c : Char) : Bool :=
  c.isDigit || pySpaceCls c || c == '-' || c == '(' || c == ')'

/-- The dash class `[-–—]` of the date patterns. -/
def dashCls (c : Char) : Bool := c == '-' || c == '–' || c == '—'

/-- Pattern `r'[\w\.-]+@[\w\.-]+\.\w+'` (email). -/
def emailRe : List RItem :=
  [rep emailCls 1, lit '@', rep emailCls 1, lit '.', rep wordCls 1]

/-- Pattern `r'(\+?\d[\d\s\-\(\)]{7,}\d)'` (phone). -/
def phoneRe : List RItem :=
  [opt (fun c => c == '+'), cls1 Char.isDigit, rep phoneMidCls 7, cls1 Char.isDigit]

/-- Pattern `r'(linkedin\.com/[^\s]+)'` with `re.I`. -/
def linkedinRe : List RItem :=
  litStrCI "linkedin.com/" ++ [rep (fun c => !pySpaceCls c) 1]

/-- The class `[\w\s]` of the address pattern. -/
def addrWordCls (c : Char) : Bool := wordCls c || pySpaceCls c

/-- Pattern `r'(\d{1,5}\s[\w\s]{3,},\s[\w\s]{3,},\s[A-Z]{2}\s\d{5})'` (address). -/
def addressRe : List RItem :=
  [repB Char.isDigit 1 5, cls1 pySpaceCls, rep addrWordCls 3, lit ',',
   cls1 pySpaceCls, rep addrWordCls 3, lit ',', cls1 pySpaceCls,
   repB Char.isUpper 2 2, cls1 pySpaceCls, repB Char.isDigit 5 5]

/-! ## difflib (`get_close_matches` / `SequenceMatcher`)

`normalize_section_header` calls `difflib.get_close_matches(word, sections,
n=1, cutoff=0.7)`.  `SequenceMatcher` is instantiated with `isjunk=None`, and
every second sequence here is far shorter than the autojunk threshold of 200
characters, so the junk machinery is inert: the two junk-extension loops of
`find_longest_match` can never fire (a neighbouring equal character pair
would contradict the maximality of the block found by the main loop), and are
therefore omitted.  `quick_ratio` and `real_quick_ratio` are upper bounds of
`ratio`, so the cutoff test reduces to `ratio() >= cutoff`. -/

/-- The index map `b2j`: positions of `c` in `b`, in ascending order. -/
def b2j (b : List Char) (c : Char) : List Nat :=
  (b.enum.filter fun p => p.2 == c).map fun p => p.1

/-- Best matching block `(besti, bestj, bestsize)`. -/
structure FlmBest where
  besti : Nat
  bestj : Nat
  bestsize : Nat

/-- Lookup in the `j2len` association list, defaulting to 0. -/
def j2lenGet (m : List (Nat × Nat)) (k : Nat) : Nat :=
  match m.find? fun p => p.1 == k with
  | some p => p.2
  | none => 0

/-- Inner loop of `find_longest_match` over the occurrence list of `a[i]`.
Mirrors difflib: skip `j < blo`, break at `j >= bhi`, extend the run ending
at `(i, j)` and remember the first strictly longest block. -/
def flmJloop (i blo bhi : Nat) (j2len : List (Nat × Nat)) :
    List Nat → List (Nat × Nat) → FlmBest → List (Nat × Nat) × FlmBest
  | [], newj2len, best => (newj2len, best)
  | j :: js, newj2len, best =>
    if j < blo then flmJloop i blo bhi j2len js newj2len best
    else if bhi ≤ j then (newj2len, best)
    else
      let k := (if j = 0 then 0 else j2lenGet j2len (j - 1)) + 1
      let best2 := if best.bestsize < k then ⟨i + 1 - k, j + 1 - k, k⟩ else best
      flmJloop i blo bhi j2len js ((j, k) :: newj2len) best2

/-- Outer loop of `find_longest_match` over `i` in `[alo, ahi)`. -/
def flmIloop (a : List Char) (b : List Char) (blo bhi : Nat) :
    List Nat → List (Nat × Nat) → FlmBest → FlmBest
  | [], _, best => best
  | i :: is, j2len, best =>
    let step := flmJloop i blo bhi j2len (b2j b (a.getD i ' ')) [] best
    flmIloop a b blo bhi is step.1 step.2

/-- Model of `SequenceMatcher.find_longest_match` on the region
`a[alo:ahi]` / `b[blo:bhi]` (no junk, see section comment). -/
def findLongestMatch (a b : List Char) (alo ahi blo bhi : Nat) : FlmBest :=
  flmIloop a b blo bhi (List.range' alo (ahi - alo)) [] ⟨alo, blo, 0⟩

/-- Total size of all matching blocks (`get_matching_blocks` recursion).  The
fuel only bounds the recursion depth; since every recursive call is on a
strictly smaller region, `|a| + |b| + 1` is always sufficient. -/
def smMatchesAux (a b : List Char) : Nat → Nat × Nat → Nat × Nat → Nat
  | 0, _, _ => 0
  | fuel + 1, (alo, ahi), (blo, bhi) =>
    let best := findLongestMatch a b alo ahi blo bhi
    if best.bestsize = 0 then 0
    else
      smMatchesAux a b fuel (alo, best.besti) (blo, best.bestj) +
        best.bestsize +
        smMatchesAux a b fuel (best.besti + best.bestsize, ahi)
          (best.bestj + best.bestsize, bhi)

/-- Model of `sum(block.size for block in SequenceMatcher(None, a, b)
.get_matching_blocks())`. -/
def smMatches (a b : List Char) : Nat :=
  smMatchesAux a b (a.length + b.length + 1) (0, a.length) (0, b.length)

/-- Python string comparison (`<` on code points), used by `heapq.nlargest`
to break score ties. -/
def strLtCh : List Char → List Char → Bool
  | [], [] => false
  | [], _ :: _ => true
  | _ :: _, [] => false
  | a :: as, b :: bs =>
    if a.val < b.val then true
    else if b.val < a.val then false
    else strLtCh as bs

/-- One candidate of `get_close_matches`: doubled match count, total length,
and the candidate itself. -/
def GcmBest := Nat × Nat × String

/-- Fold step of `get_close_matches(word, ..., n=1, cutoff=0.7)`: keep a
candidate iff `2*M/T >= 0.7`, i.e. `10*(2*M) >= 7*T` (for the string lengths
at hand the rational comparison agrees with Python's float comparison), and
retain the maximum under the order `(ratio, candidate)` that
`heapq.nlargest` applies to the `(score, x)` pairs; ratio comparison is done
exactly by cross-multiplication. -/
def gcmStep (w : List Char) (best : Option GcmBest) (x : String) : Option GcmBest :=
  let m2 := 2 * smMatches x.data w
  let t := x.data.length + w.length
  if 10 * m2 < 7 * t then best
  else
    match best with
    | none => some (m2, t, x)
    | some (bm2, bt, bx) =>
      if bm2 * t < m2 * bt || (m2 * bt == bm2 * t && strLtCh bx.data x.data) then
        some (m2, t, x)
      else best

/-- Model of `difflib.get_close_matches(word, poss, n=1, cutoff=0.7)`, returning the
single best entry if any candidate reaches the cutoff. -/
def getCloseMatch1 (word : String) (poss : List String) : Option String :=
  (poss.foldl (gcmStep word.data) none).map fun b => b.2.2

/-! ## The CV parser -/

/-- The fixed taxonomy `STANDARD_SECTIONS` of `cv_parser.py`. -/
def STANDARD_SECTIONS : List String :=
  ["ABOUT ME", "SUMMARY", "PROFILE", "OBJECTIVE",
   "EXPERIENCE", "WORK EXPERIENCE", "PROFESSIONAL EXPERIENCE", "EMPLOYMENT HISTORY",
   "EDUCATION", "ACADEMIC BACKGROUND", "QUALIFICATIONS",
   "SKILLS", "TECHNICAL SKILLS", "SOFT SKILLS", "LANGUAGE SKILLS",
   "PROJECTS", "RESEARCH PROJECTS",
   "CERTIFICATIONS", "TRAINING", "COURSES",
   "LANGUAGES", "LANGUAGE PROFICIENCY",
   "CONTACT", "CONTACT INFORMATION", "PERSONAL DETAILS",
   "INTERESTS", "HOBBIES", "ADDITIONAL ACTIVITIES",
   "VOLUNTEERING", "VOLUNTEER WORK",
   "AWARDS", "ACHIEVEMENTS", "HONORS",
   "PUBLICATIONS", "RESEARCH PAPERS",
   "REFERENCES"]

/-- Source `normalize_section_header(header)`: exact taxonomy match on the
uppercased, stripped candidate, then `get_close_matches(..., n=1,
cutoff=0.7)`, then the keyword fallbacks, else no match. -/
def normalize_section_header (header : String) : Option String :=
  let hu := pyStrip (pyUpper header)
  if STANDARD_SECTIONS.contains hu then some hu
  else
    match getCloseMatch1 hu STANDARD_SECTIONS with
    | some m => some m
    | none =>
      if pyContains "WORK" hu && pyContains "HISTORY" hu then some "WORK EXPERIENCE"
      else if pyContains "EDUCATION" hu || pyContains "QUALIFICATION" hu then some "EDUCATION"
      else if pyContains "CONTACT" hu || pyContains "DETAILS" hu then some "CONTACT"
      else none

/-- The header test of `identify_sections`: normalizer success, or an
all-uppercase line of at most 5 words, or a title-case line of at most 4
words, in that priority order. -/
def isHeaderLine (line : String) : Bool :=
  (normalize_section_header line).isSome ||
    (pyIsUpper line && decide (wordCount line ≤ 5)) ||
    (titleRegexOk line && decide (wordCount line ≤ 4))

/-- The section name adopted when a header is recognized:
`normalized_header if normalized_header else line.upper()`. -/
def resolveName (line : String) : String :=
  match normalize_section_header line with
  | some n => n
  | none => pyUpper line

/-- Loop state of `identify_sections`: the insertion-ordered mapping
(a Python dict with string keys) and the current section name. -/
structure SegState where
  sections : List (String × List String)
  current : String

/-- Test `name in sections` on the insertion-ordered mapping. -/
def alHasKey (al : List (String × List String)) (k : String) : Bool :=
  al.any fun p => p.1 == k

/-- Update `sections[k].append(line)`: append a line to the list stored under the
(unique) key `k`. -/
def alAppendLine : List (String × List String) → String → String → List (String × List String)
  | [], _, _ => []
  | p :: rest, k, line =>
    if p.1 == k then (p.1, p.2 ++ [line]) :: rest
    else p :: alAppendLine rest k line

/-- Update `if k not in sections: sections[k] = []`. -/
def alEnsure (al : List (String × List String)) (k : String) : List (String × List String) :=
  if alHasKey al k then al else al ++ [(k, [])]

/-- One iteration of the `identify_sections` loop. -/
def segStep (st : SegState) (line : String) : SegState :=
  if isHeaderLine line then
    let name := resolveName line
    ⟨alEnsure st.sections name, name⟩
  else
    ⟨alAppendLine (alEnsure st.sections st.current) st.current line, st.current⟩

/-- Source `identify_sections(text)`: the ordered mapping from section name to line
list, starting from `{"GENERAL INFORMATION": []}`. -/
def identify_sections (text : String) : List (String × List String) :=
  ((pyLines text).foldl segStep ⟨[("GENERAL INFORMATION", [])], "GENERAL INFORMATION"⟩).sections

/-- An education entry: a Python dict whose keys are a subset of
`degree` / `institution` / `date`; `none` models an absent key. -/
structure EduEntry where
  degree : Option String := none
  institution : Option String := none
  date : Option String := none
deriving DecidableEq, Repr

/-- The empty education entry (`{}`, falsy in Python). -/
def eduEmpty : EduEntry := {}

/-- The degree keyword test of `extract_education`. -/
def degreeTrigger (line : String) : Bool :=
  containsAnyCI ["Bachelor", "Master", "PhD", "B.Sc", "M.Sc", "Diploma", "Degree",
    "Licence", "Engineering"] line

/-- The institution keyword test of `extract_education`. -/
def instTrigger (line : String) : Bool :=
  containsAnyCI ["University", "School", "College", "Institute"] line

/-- First alternative of `r'(\d{4})\s?[-–—]\s?(\d{4}|Present)'`. -/
def eduDateRe1 : List RItem :=
  [repB Char.isDigit 4 4, opt pySpaceCls, cls1 dashCls, opt pySpaceCls,
   repB Char.isDigit 4 4]

/-- Second alternative of `r'(\d{4})\s?[-–—]\s?(\d{4}|Present)'`. -/
def eduDateRe2 : List RItem :=
  [repB Char.isDigit 4 4, opt pySpaceCls, cls1 dashCls, opt pySpaceCls] ++
    litStr "Present"

/-- The date-range test of `extract_education` (`re.search` used as a
condition, so only existence matters). -/
def eduDateTrigger (line : String) : Bool :=
  (searchAux eduDateRe1 line.data).isSome || (searchAux eduDateRe2 line.data).isSome

/-- One iteration of the `extract_education` loop over
`(education_list, current_edu)`. -/
def eduStep (st : List EduEntry × EduEntry) (line : String) : List EduEntry × EduEntry :=
  if degreeTrigger line then
    (st.1 ++ (if st.2 = eduEmpty then [] else [st.2]), { degree := some line })
  else if instTrigger line then
    (st.1, { st.2 with institution := some line })
  else if eduDateTrigger line then
    (st.1, { st.2 with date := some line })
  else st

/-- Source `extract_education(text)`. -/
def extract_education (text : String) : List EduEntry :=
  let st := (pyLines text).foldl eduStep ([], eduEmpty)
  if st.2 ≠ eduEmpty then st.1 ++ [st.2] else st.1

/-- Source `extract_languages(text)`: split on `[,•\n]`, strip, drop empties. -/
def extract_languages (text : String) : List String :=
  ((pySplitCls (fun c => c == ',' || c == '•' || c == '\n') text).map pyStrip).filter
    fun l => l != ""

/-- Source `extract_skills(text)`: the accumulation loop of the source. -/
def extract_skills (text : String) : List String :=
  (pySplitCls (fun c => c == ',' || c == '•' || c == '\n') text).foldl
    (fun skills item =>
      let item := pyStrip item
      if item != "" && decide (wordCount item ≤ 5) then skills ++ [item] else skills)
    []

/-- The result dict of `extract_contact_info`; every field is initialized
absent / empty exactly as in the source. -/
structure ContactInfo where
  name : Option String := none
  email : Option String := none
  phone : List String := []
  linkedin : Option String := none
  address : Option String := none
  website : Option String := none
deriving DecidableEq, Repr

/-- The name heuristic of `extract_contact_info`:
`(line.istitle() or line.isupper()) and 1 < len(line.split()) <= 4`. -/
def nameCond (line : String) : Bool :=
  (pyIsTitle line || pyIsUpper line) && decide (1 < wordCount line) &&
    decide (wordCount line ≤ 4)

/-- Source `extract_contact_info(text)`.  The name loop over `lines[:5]` with
`break` is the first hit of `nameCond`; `emails[0]` is the head of the
findall list; the LinkedIn match is prefixed with `https://`. -/
def extract_contact_info (text : String) : ContactInfo :=
  { name := ((pyLines text).take 5).find? nameCond
    email := (pyFindall emailRe text).head?
    phone := (pyFindall phoneRe text).map pyStrip
    linkedin := (pySearch linkedinRe text).map fun m => "https://" ++ m
    address := pySearch addressRe text
    website := none }

/-- An experience entry: a Python dict whose keys are a subset of `title` /
`company` / `date` / `responsibilities`; `none` models an absent key. -/
structure ExpEntry where
  title : Option String := none
  company : Option String := none
  date : Option String := none
  responsibilities : Option (List String) := none
deriving DecidableEq, Repr

/-- The empty experience entry (`{}`, falsy in Python). -/
def expEmpty : ExpEntry := {}

/-- The title test of `extract_experience`:
`re.match(r'^[A-Z][a-z]+( [A-Z][a-z]+)*$', line) and len(line.split()) <= 5`. -/
def expTitleTrigger (line : String) : Bool :=
  titleRegexOk line && decide (wordCount line ≤ 5)

/-- The class `[a-zA-Z0-9& ]` of the company pattern. -/
def companyCls (c : Char) : Bool :=
  c.isAlpha || c.isDigit || c == '&' || c == ' '

/-- Common stem of
`r'^[A-Z][a-zA-Z0-9& ]+,\s[A-Z][a-z]+\s\d{4}\s?[-–—]\s?'`. -/
def expCoStem : List RItem :=
  [cls1 Char.isUpper, rep companyCls 1, lit ',', cls1 pySpaceCls,
   cls1 Char.isUpper, rep Char.isLower 1, cls1 pySpaceCls,
   repB Char.isDigit 4 4, opt pySpaceCls, cls1 dashCls, opt pySpaceCls]

/-- First alternative tail `(\w+\s\d{4}|...)` of the company pattern. -/
def expCoRe1 : List RItem :=
  expCoStem ++ [rep wordCls 1, cls1 pySpaceCls, repB Char.isDigit 4 4]

/-- Second alternative tail `(...|Present)` of the company pattern. -/
def expCoRe2 : List RItem :=
  expCoStem ++ litStr "Present"

/-- The company / date test of `extract_experience` (`re.match` anchored at
the line start, used as a condition). -/
def expCompanyTrigger (line : String) : Bool :=
  (matchSeq expCoRe1 line.data).isSome || (matchSeq expCoRe2 line.data).isSome

/-- Model of `re.split(r',\s|\s[-–—]\s', line)`: scan left to right, splitting at the
leftmost delimiter occurrence, trying the alternatives in order (`,\s`
consumes 2 characters, `\s[-–—]\s` consumes 3). -/
def expSplitAux : Nat → List Char → List Char → List (List Char)
  | _, acc, [] => [acc.reverse]
  | 0, acc, rest => [acc.reverse ++ rest]
  | fuel + 1, acc, c :: rest =>
    if (matchSeq [lit ',', cls1 pySpaceCls] (c :: rest)).isSome then
      acc.reverse :: expSplitAux fuel [] ((c :: rest).drop 2)
    else if (matchSeq [cls1 pySpaceCls, cls1 dashCls, cls1 pySpaceCls] (c :: rest)).isSome then
      acc.reverse :: expSplitAux fuel [] ((c :: rest).drop 3)
    else
      expSplitAux fuel (c :: acc) rest

/-- Model of `re.split(r',\s|\s[-–—]\s', line)` on strings.  As with `findallAux`,
the fuel `line.length` always outlasts the strictly shrinking input. -/
def expSplit (line : String) : List String :=
  (expSplitAux line.data.length [] line.data).map fun cs => ⟨cs⟩

/-- The bullet test of `extract_experience`:
`line.startswith('- ') or re.match(r'^•\s', line)`. -/
def bulletTrigger (line : String) : Bool :=
  pyStartsWith "- " line ||
    match line.data with
    | '•' :: c :: _ => pySpaceCls c
    | _ => false

/-- One iteration of the `extract_experience` loop over
`(experiences, current_exp)`. -/
def expStep (st : List ExpEntry × ExpEntry) (line : String) : List ExpEntry × ExpEntry :=
  if expTitleTrigger line then
    (st.1 ++ (if st.2 = expEmpty then [] else [st.2]), { title := some line })
  else if expCompanyTrigger line then
    let parts := expSplit line
    if 3 ≤ parts.length then
      (st.1,
        { st.2 with
          company := some (parts.getD 0 "")
          date := some (pyJoin " " (parts.drop 1)) })
    else st
  else if bulletTrigger line then
    (st.1,
      { st.2 with
        responsibilities :=
          some ((st.2.responsibilities.getD []) ++ [pyStrip (pyDropChars 2 line)]) })
  else st

/-- Source `extract_experience(text)`. -/
def extract_experience (text : String) : List ExpEntry :=
  let st := (pyLines text).foldl expStep ([], expEmpty)
  if st.2 ≠ expEmpty then st.1 ++ [st.2] else st.1

/-- A value of the structured record: raw text, a string list, the contact
dict, or an entry list. -/
inductive Value where
  | vStr : String → Value
  | vList : List String → Value
  | vContact : ContactInfo → Value
  | vEdu : List EduEntry → Value
  | vExp : List ExpEntry → Value
deriving DecidableEq, Repr

/-- Python dict assignment `d[k] = v` on an insertion-ordered mapping:
replace in place if the key exists, otherwise append. -/
def dictInsert : List (String × Value) → String → Value → List (String × Value)
  | [], k, v => [(k, v)]
  | p :: rest, k, v =>
    if p.1 == k then (k, v) :: rest
    else p :: dictInsert rest k v

/-- Slug `section.lower().replace(" ", "_")`, the passthrough key. -/
def slugKey (s : String) : String :=
  ⟨(pyLower s).data.map fun c => if c == ' ' then '_' else c⟩

/-- The output key `extract_structured_data` files a section under, following
its dispatch chain. -/
def routeKey (s : String) : String :=
  if s == "CONTACT" || s == "CONTACT INFORMATION" then "contact"
  else if s == "SKILLS" || s == "TECHNICAL SKILLS" || s == "SOFT SKILLS" then "skills"
  else if s == "EXPERIENCE" || s == "WORK EXPERIENCE" then "experience"
  else if s == "EDUCATION" then "education"
  else if s == "LANGUAGES" then "languages"
  else slugKey s

/-- One iteration of the `extract_structured_data` loop: join the section's
lines and dispatch on the section name. -/
def esdStep (acc : List (String × Value)) (sc : String × List String) :
    List (String × Value) :=
  let content_text := pyJoin "\n" sc.2
  if sc.1 == "CONTACT" || sc.1 == "CONTACT INFORMATION" then
    dictInsert acc "contact" (Value.vContact (extract_contact_info content_text))
  else if sc.1 == "SKILLS" || sc.1 == "TECHNICAL SKILLS" || sc.1 == "SOFT SKILLS" then
    dictInsert acc "skills" (Value.vList (extract_skills content_text))
  else if sc.1 == "EXPERIENCE" || sc.1 == "WORK EXPERIENCE" then
    dictInsert acc "experience" (Value.vExp (extract_experience content_text))
  else if sc.1 == "EDUCATION" then
    dictInsert acc "education" (Value.vEdu (extract_education content_text))
  else if sc.1 == "LANGUAGES" then
    dictInsert acc "languages" (Value.vList (extract_languages content_text))
  else
    dictInsert acc (slugKey sc.1) (Value.vStr content_text)

/-- Source `extract_structured_data(sections)`. -/
def extract_structured_data (sections : List (String × List String)) :
    List (String × Value) :=
  sections.foldl esdStep []

/-- Source `process_file(file_path)`.  File-system access and text acquisition
(PyMuPDF / Tesseract OCR) are external collaborators per the specification;
they are modeled by three arguments: whether the file exists, its lowercased
extension, and the outcome of text extraction (`Except.error` models an
exception raised by the external libraries, caught by the source's
`except` clause). -/
def process_file (fileExists : Bool) (fileExt : String)
    (extraction : Except String String) : List (String × Value) :=
  if !fileExists then [("error", Value.vStr "File not found")]
  else if fileExt == ".pdf" || fileExt == ".png" || fileExt == ".jpg"
      || fileExt == ".jpeg" then
    match extraction with
    | Except.error e => [("error", Value.vStr e)]
    | Except.ok text =>
      if pyStrip text == "" then [("error", Value.vStr "No text could be extracted")]
      else extract_structured_data (identify_sections text)
  else [("error", Value.vStr "Unsupported file type")]

/-- Concatenation of all section line lists in insertion order. -/
def joinSections (al : List (String × List String)) : List String :=
  (al.map Prod.snd).flatten

/-! ## Helper lemmas -/

theorem gcmStep_cases (w : List Char) (best : Option GcmBest) (x : String) :
    gcmStep w best x = best ∨ ∃ m2 t, gcmStep w best x = some (m2, t, x) := by
  simp only [gcmStep]
  split
  · left; rfl
  · split
    · right; exact ⟨_, _, rfl⟩
    · split
      · right; exact ⟨_, _, rfl⟩
      · left; rfl

theorem gcmFold_mem (w : List Char) (l : List String) :
    ∀ (acc : Option GcmBest) (r : GcmBest),
      l.foldl (gcmStep w) acc = some r → acc = some r ∨ r.2.2 ∈ l := by
  induction l with
  | nil => intro acc r h; left; exact h
  | cons x xs ih =>
    intro acc r h
    simp only [List.foldl_cons] at h
    rcases ih (gcmStep w acc x) r h with h1 | h1
    · rcases gcmStep_cases w acc x with h2 | ⟨m2, t, h2⟩
      · left; rw [← h2]; exact h1
      · right
        rw [h2] at h1
        obtain rfl : r = (m2, t, x) := (Option.some.injEq _ _ ▸ h1).symm ▸ rfl
        exact List.mem_cons_self x xs
    · right; exact List.mem_cons_of_mem _ h1

theorem getCloseMatch1_mem (word : String) (poss : List String) (m : String)
    (h : getCloseMatch1 word poss = some m) : m ∈ poss := by
  unfold getCloseMatch1 at h
  cases hf : poss.foldl (gcmStep word.data) none with
  | none => rw [hf] at h; simp [Option.map] at h
  | some r =>
    rw [hf] at h
    simp only [Option.map] at h
    rcases gcmFold_mem word.data poss none r hf with h1 | h1
    · exact absurd h1 (by simp)
    · obtain rfl : r.2.2 = m := by simpa using h
      exact h1

theorem normalize_mem (x c : String) (h : normalize_section_header x = some c) :
    c ∈ STANDARD_SECTIONS := by
  unfold normalize_section_header at h
  by_cases h1 : STANDARD_SECTIONS.contains (pyStrip (pyUpper x))
  · rw [if_pos h1] at h
    obtain rfl : pyStrip (pyUpper x) = c := by simpa using h
    simpa using h1
  · rw [if_neg h1] at h
    cases hg : getCloseMatch1 (pyStrip (pyUpper x)) STANDARD_SECTIONS with
    | some m =>
      rw [hg] at h
      obtain rfl : m = c := by simpa using h
      exact getCloseMatch1_mem _ _ _ hg
    | none =>
      rw [hg] at h
      by_cases h2 : pyContains "WORK" (pyStrip (pyUpper x)) &&
          pyContains "HISTORY" (pyStrip (pyUpper x))
      · rw [if_pos h2] at h
        obtain rfl : "WORK EXPERIENCE" = c := by simpa using h
        decide
      · rw [if_neg h2] at h
        by_cases h3 : pyContains "EDUCATION" (pyStrip (pyUpper x)) ||
            pyContains "QUALIFICATION" (pyStrip (pyUpper x))
        · rw [if_pos h3] at h
          obtain rfl : "EDUCATION" = c := by simpa using h
          decide
        · rw [if_neg h3] at h
          by_cases h4 : pyContains "CONTACT" (pyStrip (pyUpper x)) ||
              pyContains "DETAILS" (pyStrip (pyUpper x))
          · rw [if_pos h4] at h
            obtain rfl : "CONTACT" = c := by simpa using h
            decide
          · rw [if_neg h4] at h
            simp at h

theorem canonical_fixed : ∀ c ∈ STANDARD_SECTIONS, normalize_section_header c = some c := by
  decide

/-! ## Claims -/

/-- C5: `normalize_section_header` is idempotent on successful results: if it
maps `x` to the canonical name `c`, it maps `c` to `c`. -/
theorem c5_normalize_idempotent (x c : String)
    (h : normalize_section_header x = some c) :
    normalize_section_header c = some c :=
  canonical_fixed c (normalize_mem x c h)

/-- Witness for C5 at the concrete input `"Education"`. -/
theorem c5_normalize_idempotent_witness :
    normalize_section_header "EDUCATION" = some "EDUCATION" :=
  c5_normalize_idempotent "Education" "EDUCATION" (by decide)

/-- C3 counterexample: on the misspelled header `"WROK HISTROY"` the
normalizer does **not** return `WORK EXPERIENCE`. -/
theorem c3_counterexample :
    normalize_section_header "WROK HISTROY" ≠ some "WORK EXPERIENCE" := by
  decide

/-- C3 (amended): `normalize_section_header "WROK HISTROY"` returns no match:
no taxonomy entry reaches similarity ratio 0.7 (the best, EMPLOYMENT HISTORY,
scores 16/30), and the keyword fallback cannot fire because neither `WORK`
nor `HISTORY` occurs as a substring of the misspelled text. -/
theorem c3_amended : normalize_section_header "WROK HISTROY" = none := by
  decide

/-- C10: the `website` field of the contact dict is declared but never
assigned by any code path, so it is `None` for every input. -/
theorem c10_website_none : ∀ text : String, (extract_contact_info text).website = none :=
  fun _ => rfl

theorem skills_foldl_eq (items : List String) (acc : List String) :
    items.foldl
      (fun skills item =>
        let item := pyStrip item
        if item != "" && decide (wordCount item ≤ 5) then skills ++ [item] else skills)
      acc =
    acc ++ (items.map pyStrip).filter fun s => s != "" && decide (wordCount s ≤ 5) := by
  induction items generalizing acc with
  | nil => simp
  | cons x xs ih =>
    simp only [List.foldl_cons, List.map_cons, List.filter_cons]
    by_cases h : (pyStrip x != "" && decide (wordCount (pyStrip x) ≤ 5)) = true
    · rw [if_pos h, ih, h]
      simp
    · rw [if_neg h, ih]
      simp only [Bool.not_eq_true] at h
      rw [h]
      simp

/-- C7: `extract_skills` splits on commas, bullets and newlines, strips each
piece, and keeps (in order, duplicates preserved) exactly the non-empty
pieces of at most 5 words; on the Scenario B text it returns exactly the
three short skills. -/
theorem c7_skills :
    (∀ text, extract_skills text =
      ((pySplitCls (fun c => c == ',' || c == '•' || c == '\n') text).map pyStrip).filter
        fun s => s != "" && decide (wordCount s ≤ 5)) ∧
    extract_skills "Python, Project Management, Public Speaking\nThis is a long sentence that should be filtered out because it has too many words" =
      ["Python", "Project Management", "Public Speaking"] := by
  constructor
  · intro text
    unfold extract_skills
    rw [skills_foldl_eq]
    simp
  · decide

/-- C8: the contact name is the first of the first 5 non-empty lines that is
title-case or all-uppercase with 2 to 4 words; on the Scenario C text the
extractor finds Jane Doe's name, email and phone number. -/
theorem c8_contact :
    (∀ text, (extract_contact_info text).name = ((pyLines text).take 5).find? nameCond) ∧
    (extract_contact_info "Jane Doe\njane.doe@example.com\n+1 (555) 123-4567").name =
      some "Jane Doe" ∧
    (extract_contact_info "Jane Doe\njane.doe@example.com\n+1 (555) 123-4567").email =
      some "jane.doe@example.com" ∧
    (extract_contact_info "Jane Doe\njane.doe@example.com\n+1 (555) 123-4567").phone =
      ["+1 (555) 123-4567"] := by
  refine ⟨fun _ => rfl, ?_, ?_, ?_⟩ <;> decide

/-- C9: `process_file` returns either the structured record of the extracted
text or a single-key error object, never a mixture; and whenever the
extracted text strips to nothing it returns exactly
`{"error": "No text could be extracted"}`. -/
theorem c9_process_file :
    (∀ (fileExists : Bool) (fileExt : String) (extraction : Except String String),
      (∃ m, process_file fileExists fileExt extraction = [("error", Value.vStr m)]) ∨
      (∃ text, extraction = Except.ok text ∧
        process_file fileExists fileExt extraction =
          extract_structured_data (identify_sections text))) ∧
    (∀ (fileExt : String) (text : String),
      (fileExt == ".pdf" || fileExt == ".png" || fileExt == ".jpg"
        || fileExt == ".jpeg") = true →
      pyStrip text = "" →
      process_file true fileExt (Except.ok text) =
        [("error", Value.vStr "No text could be extracted")]) := by
  constructor
  · intro fileExists fileExt extraction
    cases extraction with
    | error e =>
      unfold process_file
      split
      · exact Or.inl ⟨_, rfl⟩
      · split
        · exact Or.inl ⟨_, rfl⟩
        · exact Or.inl ⟨_, rfl⟩
    | ok text =>
      unfold process_file
      split
      · exact Or.inl ⟨_, rfl⟩
      · split
        · by_cases h : (pyStrip text == "") = true
          · refine Or.inl ⟨"No text could be extracted", ?_⟩
            simp [h]
          · refine Or.inr ⟨text, rfl, ?_⟩
            simp [h]
        · exact Or.inl ⟨_, rfl⟩
  · intro fileExt text hext hstrip
    simp [process_file, hext, hstrip]

/-- Witness for C9 at a whitespace-only extraction result. -/
theorem c9_process_file_witness :
    process_file true ".pdf" (Except.ok " \n ") =
      [("error", Value.vStr "No text could be extracted")] :=
  c9_process_file.2 ".pdf" " \n " (by decide) (by decide)

theorem eduStep_acc (acc : List EduEntry) (cur : EduEntry) (l : String) :
    ∃ app cur2, eduStep (acc, cur) l = (acc ++ app, cur2) := by
  unfold eduStep
  split
  · exact ⟨_, _, rfl⟩
  · split
    · exact ⟨[], _, by rw [List.append_nil]⟩
    · split
      · exact ⟨[], _, by rw [List.append_nil]⟩
      · exact ⟨[], _, by rw [List.append_nil]⟩

theorem expStep_acc (acc : List ExpEntry) (cur : ExpEntry) (l : String) :
    ∃ app cur2, expStep (acc, cur) l = (acc ++ app, cur2) := by
  simp only [expStep]
  split
  · exact ⟨_, _, rfl⟩
  · split
    · split
      · exact ⟨[], _, by rw [List.append_nil]⟩
      · exact ⟨[], _, by rw [List.append_nil]⟩
    · split
      · exact ⟨[], _, by rw [List.append_nil]⟩
      · exact ⟨[], _, by rw [List.append_nil]⟩

theorem eduFold_acc (lines : List String) :
    ∀ (acc : List EduEntry) (cur : EduEntry),
      ∃ emitted, (lines.foldl eduStep (acc, cur)).1 = acc ++ emitted := by
  induction lines with
  | nil => intro acc cur; exact ⟨[], by simp⟩
  | cons l ls ih =>
    intro acc cur
    simp only [List.foldl_cons]
    obtain ⟨app, cur2, hstep⟩ := eduStep_acc acc cur l
    rw [hstep]
    obtain ⟨em, hem⟩ := ih (acc ++ app) cur2
    exact ⟨app ++ em, by rw [hem, List.append_assoc]⟩

theorem expFold_acc (lines : List String) :
    ∀ (acc : List ExpEntry) (cur : ExpEntry),
      ∃ emitted, (lines.foldl expStep (acc, cur)).1 = acc ++ emitted := by
  induction lines with
  | nil => intro acc cur; exact ⟨[], by simp⟩
  | cons l ls ih =>
    intro acc cur
    simp only [List.foldl_cons]
    obtain ⟨app, cur2, hstep⟩ := expStep_acc acc cur l
    rw [hstep]
    obtain ⟨em, hem⟩ := ih (acc ++ app) cur2
    exact ⟨app ++ em, by rw [hem, List.append_assoc]⟩

theorem eduStep_ne (acc : List EduEntry) (cur : EduEntry) (l : String)
    (h : ∀ e ∈ acc, e ≠ eduEmpty) :
    ∀ e ∈ (eduStep (acc, cur) l).1, e ≠ eduEmpty := by
  unfold eduStep
  split
  · intro e he
    by_cases hc : cur = eduEmpty
    · simp [hc] at he
      exact h e he
    · simp only [if_neg hc] at he
      rcases List.mem_append.1 he with h1 | h1
      · exact h e h1
      · obtain rfl : e = cur := by simpa using h1
        exact hc
  · split
    · exact fun e he => h e he
    · split
      · exact fun e he => h e he
      · exact fun e he => h e he

theorem expStep_ne (acc : List ExpEntry) (cur : ExpEntry) (l : String)
    (h : ∀ e ∈ acc, e ≠ expEmpty) :
    ∀ e ∈ (expStep (acc, cur) l).1, e ≠ expEmpty := by
  simp only [expStep]
  split
  · intro e he
    by_cases hc : cur = expEmpty
    · simp [hc] at he
      exact h e he
    · simp only [if_neg hc] at he
      rcases List.mem_append.1 he with h1 | h1
      · exact h e h1
      · obtain rfl : e = cur := by simpa using h1
        exact hc
  · split
    · split
      · exact fun e he => h e he
      · exact fun e he => h e he
    · split
      · exact fun e he => h e he
      · exact fun e he => h e he

theorem eduFold_ne (lines : List String) :
    ∀ (acc : List EduEntry) (cur : EduEntry), (∀ e ∈ acc, e ≠ eduEmpty) →
      ∀ e ∈ (lines.foldl eduStep (acc, cur)).1, e ≠ eduEmpty := by
  induction lines with
  | nil => intro acc cur h; simpa using h
  | cons l ls ih =>
    intro acc cur h
    simp only [List.foldl_cons]
    have hstep := eduStep_ne acc cur l h
    obtain ⟨a2, c2, heq⟩ : ∃ a2 c2, eduStep (acc, cur) l = (a2, c2) := ⟨_, _, rfl⟩
    rw [heq] at hstep ⊢
    exact ih a2 c2 hstep

theorem expFold_ne (lines : List String) :
    ∀ (acc : List ExpEntry) (cur : ExpEntry), (∀ e ∈ acc, e ≠ expEmpty) →
      ∀ e ∈ (lines.foldl expStep (acc, cur)).1, e ≠ expEmpty := by
  induction lines with
  | nil => intro acc cur h; simpa using h
  | cons l ls ih =>
    intro acc cur h
    simp only [List.foldl_cons]
    have hstep := expStep_ne acc cur l h
    obtain ⟨a2, c2, heq⟩ : ∃ a2 c2, expStep (acc, cur) l = (a2, c2) := ⟨_, _, rfl⟩
    rw [heq] at hstep ⊢
    exact ih a2 c2 hstep

/-- C6: in both entry accumulators, (i) no empty entry is ever emitted;
(ii) a trigger line arriving while the current entry is non-empty flushes
exactly that entry to the end of the output and restarts with only the
trigger field set; (iii) the output list is append-only (each already
emitted entry stays, in order, and is never duplicated or removed); and
(iv) a non-empty final entry is flushed at end of input. -/
theorem c6_entry_flush :
    (∀ text, ∀ e ∈ extract_education text, e ≠ eduEmpty) ∧
    (∀ text, ∀ e ∈ extract_experience text, e ≠ expEmpty) ∧
    (∀ (acc : List EduEntry) (cur : EduEntry) (line : String),
      degreeTrigger line = true → cur ≠ eduEmpty →
      eduStep (acc, cur) line = (acc ++ [cur], { degree := some line })) ∧
    (∀ (acc : List ExpEntry) (cur : ExpEntry) (line : String),
      expTitleTrigger line = true → cur ≠ expEmpty →
      expStep (acc, cur) line = (acc ++ [cur], { title := some line })) ∧
    (∀ (lines : List String) (acc : List EduEntry) (cur : EduEntry),
      ∃ emitted, (lines.foldl eduStep (acc, cur)).1 = acc ++ emitted) ∧
    (∀ (lines : List String) (acc : List ExpEntry) (cur : ExpEntry),
      ∃ emitted, (lines.foldl expStep (acc, cur)).1 = acc ++ emitted) ∧
    (∀ text, ((pyLines text).foldl eduStep ([], eduEmpty)).2 ≠ eduEmpty →
      extract_education text =
        ((pyLines text).foldl eduStep ([], eduEmpty)).1 ++
          [((pyLines text).foldl eduStep ([], eduEmpty)).2]) ∧
    (∀ text, ((pyLines text).foldl expStep ([], expEmpty)).2 ≠ expEmpty →
      extract_experience text =
        ((pyLines text).foldl expStep ([], expEmpty)).1 ++
          [((pyLines text).foldl expStep ([], expEmpty)).2]) := by
  refine ⟨?_, ?_, ?_, ?_, fun l a c => eduFold_acc l a c, fun l a c => expFold_acc l a c,
    ?_, ?_⟩
  · intro text e he
    unfold extract_education at he
    have hacc := eduFold_ne (pyLines text) [] eduEmpty (by simp)
    by_cases h : ((pyLines text).foldl eduStep ([], eduEmpty)).2 ≠ eduEmpty
    · rw [if_pos h] at he
      rcases List.mem_append.1 he with h1 | h1
      · exact hacc e h1
      · obtain rfl : e = _ := by simpa using h1
        exact h
    · rw [if_neg h] at he
      exact hacc e he
  · intro text e he
    unfold extract_experience at he
    have hacc := expFold_ne (pyLines text) [] expEmpty (by simp)
    by_cases h : ((pyLines text).foldl expStep ([], expEmpty)).2 ≠ expEmpty
    · rw [if_pos h] at he
      rcases List.mem_append.1 he with h1 | h1
      · exact hacc e h1
      · obtain rfl : e = _ := by simpa using h1
        exact h
    · rw [if_neg h] at he
      exact hacc e he
  · intro acc cur line h1 h2
    unfold eduStep
    simp [h1, h2]
  · intro acc cur line h1 h2
    unfold expStep
    simp [h1, h2]
  · intro text h
    unfold extract_education
    rw [if_pos h]
  · intro text h
    unfold extract_experience
    rw [if_pos h]

/-- Witness for C6 on the Scenario A education text and concrete flush
steps. -/
theorem c6_entry_flush_witness :
    (⟨some "Bachelor of Science", some "MIT University", some "2018 - 2022"⟩ : EduEntry) ≠
      eduEmpty ∧
    eduStep ([], ⟨none, some "MIT University", none⟩) "Bachelor of Science" =
      ([⟨none, some "MIT University", none⟩], ⟨some "Bachelor of Science", none, none⟩) ∧
    expStep ([], ⟨none, some "Acme Corp", none, none⟩) "Senior Developer" =
      ([⟨none, some "Acme Corp", none, none⟩], ⟨some "Senior Developer", none, none, none⟩) := by
  obtain ⟨h1, -, h3, h4, -, -, -, -⟩ := c6_entry_flush
  refine ⟨?_, ?_, ?_⟩
  · exact h1 "Bachelor of Science\nMIT University\n2018 - 2022" _ (by decide)
  · exact h3 [] ⟨none, some "MIT University", none⟩ "Bachelor of Science" (by decide)
      (by decide)
  · exact h4 [] ⟨none, some "Acme Corp", none, none⟩ "Senior Developer" (by decide)
      (by decide)

theorem alAppendLine_ok (line : String) (hl : isHeaderLine line = false) :
    ∀ (al : List (String × List String)) (k : String),
      (∀ p ∈ al, ∀ l ∈ p.2, isHeaderLine l = false) →
      ∀ p ∈ alAppendLine al k line, ∀ l ∈ p.2, isHeaderLine l = false := by
  intro al
  induction al with
  | nil => intro k h; simp [alAppendLine]
  | cons q rest ih =>
    intro k h p hp l hlmem
    unfold alAppendLine at hp
    by_cases hq : (q.1 == k) = true
    · rw [if_pos hq] at hp
      rcases List.mem_cons.1 hp with h1 | h1
      · subst h1
        rcases List.mem_append.1 hlmem with h2 | h2
        · exact h q (List.mem_cons_self q rest) l h2
        · obtain rfl : l = line := by simpa using h2
          exact hl
      · exact h p (List.mem_cons_of_mem q h1) l hlmem
    · rw [if_neg hq] at hp
      rcases List.mem_cons.1 hp with h1 | h1
      · subst h1
        exact h p (List.mem_cons_self p rest) l hlmem
      · exact ih k (fun r hr => h r (List.mem_cons_of_mem q hr)) p h1 l hlmem

theorem alEnsure_ok (al : List (String × List String)) (k : String)
    (h : ∀ p ∈ al, ∀ l ∈ p.2, isHeaderLine l = false) :
    ∀ p ∈ alEnsure al k, ∀ l ∈ p.2, isHeaderLine l = false := by
  unfold alEnsure
  split
  · exact h
  · intro p hp
    rcases List.mem_append.1 hp with h1 | h1
    · exact h p h1
    · obtain rfl : p = (k, []) := by simpa using h1
      simp

theorem segStep_ok (st : SegState) (line : String)
    (h : ∀ p ∈ st.sections, ∀ l ∈ p.2, isHeaderLine l = false) :
    ∀ p ∈ (segStep st line).sections, ∀ l ∈ p.2, isHeaderLine l = false := by
  unfold segStep
  split
  next hh => exact alEnsure_ok st.sections (resolveName line) h
  next hh =>
    have hl : isHeaderLine line = false := by
      simpa using hh
    exact alAppendLine_ok line hl (alEnsure st.sections st.current) st.current
      (alEnsure_ok st.sections st.current h)

theorem segFold_ok (lines : List String) :
    ∀ (st : SegState), (∀ p ∈ st.sections, ∀ l ∈ p.2, isHeaderLine l = false) →
      ∀ p ∈ ((lines.foldl segStep st).sections), ∀ l ∈ p.2, isHeaderLine l = false := by
  induction lines with
  | nil => intro st h; simpa using h
  | cons x xs ih =>
    intro st h
    simp only [List.foldl_cons]
    exact ih (segStep st x) (segStep_ok st x h)

theorem alEnsure_hasKey (al : List (String × List String)) (k : String) :
    alHasKey (alEnsure al k) k = true := by
  unfold alEnsure
  split
  next h => exact h
  next h => simp [alHasKey, List.any_append]

/-- C4: (i) every line stored in any section list of `identify_sections` is a
content line (never one classified as a header); (ii) a header step whose
resolved name is already a key leaves the mapping untouched (no reset of the
accumulated lines) and only moves the current-section pointer; (iii) a
content step appends the line at the end of the current section's list. -/
theorem c4_header_frame :
    (∀ (text name : String) (lines : List String),
      (name, lines) ∈ identify_sections text → ∀ l ∈ lines, isHeaderLine l = false) ∧
    (∀ (st : SegState) (line : String), isHeaderLine line = true →
      alHasKey st.sections (resolveName line) = true →
      (segStep st line).sections = st.sections ∧
      (segStep st line).current = resolveName line) ∧
    (∀ (st : SegState) (line : String), isHeaderLine line = false →
      alHasKey st.sections st.current = true →
      (segStep st line).sections = alAppendLine st.sections st.current line ∧
      (segStep st line).current = st.current) := by
  refine ⟨?_, ?_, ?_⟩
  · intro text name lines hmem l hl
    have h := segFold_ok (pyLines text)
      ⟨[("GENERAL INFORMATION", [])], "GENERAL INFORMATION"⟩ (by simp)
    exact h (name, lines) hmem l hl
  · intro st line h1 h2
    unfold segStep
    rw [if_pos h1]
    exact ⟨by simp [alEnsure, h2], rfl⟩
  · intro st line h1 h2
    unfold segStep
    rw [if_neg (by simp [h1])]
    exact ⟨by simp [alEnsure, h2], rfl⟩

/-- Witness for C4: concrete content line, repeated-header step, and
content-append step. -/
theorem c4_header_frame_witness :
    isHeaderLine "foo" = false ∧
    (segStep ⟨[("EDUCATION", ["x"])], "EDUCATION"⟩ "EDUCATION").sections =
      [("EDUCATION", ["x"])] ∧
    (segStep ⟨[("GENERAL INFORMATION", [])], "GENERAL INFORMATION"⟩ "foo").sections =
      alAppendLine [("GENERAL INFORMATION", [])] "GENERAL INFORMATION" "foo" := by
  obtain ⟨h1, h2, h3⟩ := c4_header_frame
  refine ⟨h1 "AB\nfoo" "AB" ["foo"] (by decide) "foo" (by decide), ?_, ?_⟩
  · exact (h2 ⟨[("EDUCATION", ["x"])], "EDUCATION"⟩ "EDUCATION" (by decide) (by decide)).1
  · exact (h3 ⟨[("GENERAL INFORMATION", [])], "GENERAL INFORMATION"⟩ "foo" (by decide)
      (by decide)).1

theorem joinSections_alEnsure (al : List (String × List String)) (k : String) :
    joinSections (alEnsure al k) = joinSections al := by
  unfold alEnsure
  split
  · rfl
  · simp [joinSections]

theorem joinSections_alAppendLine (line : String) :
    ∀ (al : List (String × List String)) (k : String), alHasKey al k = true →
      joinSections (alAppendLine al k line) ~ joinSections al ++ [line] := by
  intro al
  induction al with
  | nil => intro k h; simp [alHasKey] at h
  | cons p rest ih =>
    intro k h
    unfold alAppendLine
    by_cases hp : (p.1 == k) = true
    · rw [if_pos hp]
      show (p.2 ++ [line]) ++ joinSections rest ~ (p.2 ++ joinSections rest) ++ [line]
      calc (p.2 ++ [line]) ++ joinSections rest
          = p.2 ++ ([line] ++ joinSections rest) := by rw [List.append_assoc]
        _ ~ p.2 ++ (joinSections rest ++ [line]) :=
            List.Perm.append_left _ List.perm_append_comm
        _ = (p.2 ++ joinSections rest) ++ [line] := by rw [List.append_assoc]
    · rw [if_neg hp]
      have hk : alHasKey rest k = true := by
        have := h
        unfold alHasKey at this ⊢
        simpa [hp] using this
      show p.2 ++ joinSections (alAppendLine rest k line) ~
        (p.2 ++ joinSections rest) ++ [line]
      calc p.2 ++ joinSections (alAppendLine rest k line)
          ~ p.2 ++ (joinSections rest ++ [line]) := List.Perm.append_left _ (ih k hk)
        _ = (p.2 ++ joinSections rest) ++ [line] := by rw [List.append_assoc]

theorem segStep_join (st : SegState) (line : String) :
    joinSections (segStep st line).sections ~
      joinSections st.sections ++ (if isHeaderLine line then [] else [line]) := by
  by_cases hh : isHeaderLine line = true
  · unfold segStep
    rw [if_pos hh, hh]
    simp [joinSections_alEnsure]
  · unfold segStep
    rw [if_neg hh]
    have hb : isHeaderLine line = false := by simpa using hh
    rw [hb]
    show joinSections (alAppendLine (alEnsure st.sections st.current) st.current line) ~ _
    calc joinSections (alAppendLine (alEnsure st.sections st.current) st.current line)
        ~ joinSections (alEnsure st.sections st.current) ++ [line] :=
          joinSections_alAppendLine line _ _ (alEnsure_hasKey st.sections st.current)
      _ = joinSections st.sections ++ [line] := by rw [joinSections_alEnsure]
      _ = joinSections st.sections ++ (if false = true then [] else [line]) := by simp

theorem segFold_join (lines : List String) :
    ∀ (st : SegState),
      joinSections ((lines.foldl segStep st).sections) ~
        joinSections st.sections ++ lines.filter (fun l => !isHeaderLine l) := by
  induction lines with
  | nil => intro st; simp
  | cons l ls ih =>
    intro st
    simp only [List.foldl_cons]
    calc joinSections ((ls.foldl segStep (segStep st l)).sections)
        ~ joinSections (segStep st l).sections ++ ls.filter (fun x => !isHeaderLine x) :=
          ih (segStep st l)
      _ ~ (joinSections st.sections ++ (if isHeaderLine l then [] else [l])) ++
            ls.filter (fun x => !isHeaderLine x) :=
          List.Perm.append_right _ (segStep_join st l)
      _ = joinSections st.sections ++ (l :: ls).filter (fun x => !isHeaderLine x) := by
          by_cases hh : isHeaderLine l = true
          · simp [List.filter_cons, hh]
          · have hb : isHeaderLine l = false := by simpa using hh
            simp [List.filter_cons, hb]

/-- C1 (amended): concatenated in section-insertion order, the section line
lists of `identify_sections` contain exactly the multiset of non-empty
trimmed input lines that are **not** classified as headers.  (Header lines
are consumed as section names and never stored, and when a repeated header
resumes an earlier section the global relative order across sections is not
preserved, so only the multiset statement holds.) -/
theorem c1_lossless_content :
    ∀ text, joinSections (identify_sections text) ~
      (pyLines text).filter fun l => !isHeaderLine l := by
  intro text
  have h := segFold_join (pyLines text)
    ⟨[("GENERAL INFORMATION", [])], "GENERAL INFORMATION"⟩
  simpa [identify_sections, joinSections] using h

/-- C1 counterexample: on a document whose `AB` header recurs, the
concatenated section lists drop both header lines and permute the content
lines, so they do not equal the input line sequence. -/
theorem c1_counterexample :
    pyLines "AB\nfoo\nCD\nbar\nAB\nbaz" = ["AB", "foo", "CD", "bar", "AB", "baz"] ∧
    joinSections (identify_sections "AB\nfoo\nCD\nbar\nAB\nbaz") = ["foo", "baz", "bar"] ∧
    (["foo", "baz", "bar"] : List String) ≠ ["AB", "foo", "CD", "bar", "AB", "baz"] := by
  refine ⟨by decide, by decide, by decide⟩

theorem dictInsert_keys_sub (k2 : String) :
    ∀ (d : List (String × Value)) (k : String) (v : Value),
      k2 ∈ (dictInsert d k v).map Prod.fst → k2 ∈ d.map Prod.fst ∨ k2 = k := by
  intro d
  induction d with
  | nil =>
    intro k v h
    right
    simpa [dictInsert] using h
  | cons p rest ih =>
    intro k v h
    unfold dictInsert at h
    by_cases hp : (p.1 == k) = true
    · rw [if_pos hp] at h
      simp only [List.map_cons, List.mem_cons] at h
      rcases h with h | h
      · right; exact h
      · left; simp only [List.map_cons, List.mem_cons]; right; exact h
    · rw [if_neg hp] at h
      simp only [List.map_cons, List.mem_cons] at h
      rcases h with h | h
      · left; simp only [List.map_cons, List.mem_cons]; left; exact h
      · rcases ih k v h with h1 | h1
        · left; simp only [List.map_cons, List.mem_cons]; right; exact h1
        · right; exact h1

theorem dictInsert_keys_keep (k2 : String) :
    ∀ (d : List (String × Value)) (k : String) (v : Value),
      k2 ∈ d.map Prod.fst → k2 ∈ (dictInsert d k v).map Prod.fst := by
  intro d
  induction d with
  | nil => intro k v h; simp at h
  | cons p rest ih =>
    intro k v h
    simp only [List.map_cons, List.mem_cons] at h
    unfold dictInsert
    by_cases hp : (p.1 == k) = true
    · rw [if_pos hp]
      have hpk : p.1 = k := by simpa using hp
      simp only [List.map_cons, List.mem_cons]
      rcases h with h | h
      · left; rw [h, hpk]
      · right; exact h
    · rw [if_neg hp]
      simp only [List.map_cons, List.mem_cons]
      rcases h with h | h
      · left; exact h
      · right; exact ih k v h

theorem esdStep_key (acc : List (String × Value)) (sc : String × List String) :
    ∃ v, esdStep acc sc = dictInsert acc (routeKey sc.1) v := by
  simp only [esdStep]
  split
  next h1 =>
    refine ⟨Value.vContact (extract_contact_info (pyJoin "\n" sc.2)), ?_⟩
    simp only [routeKey]
    rw [if_pos h1]
  next h1 =>
    split
    next h2 =>
      refine ⟨Value.vList (extract_skills (pyJoin "\n" sc.2)), ?_⟩
      simp only [routeKey]
      rw [if_neg h1, if_pos h2]
    next h2 =>
      split
      next h3 =>
        refine ⟨Value.vExp (extract_experience (pyJoin "\n" sc.2)), ?_⟩
        simp only [routeKey]
        rw [if_neg h1, if_neg h2, if_pos h3]
      next h3 =>
        split
        next h4 =>
          refine ⟨Value.vEdu (extract_education (pyJoin "\n" sc.2)), ?_⟩
          simp only [routeKey]
          rw [if_neg h1, if_neg h2, if_neg h3, if_pos h4]
        next h4 =>
          split
          next h5 =>
            refine ⟨Value.vList (extract_languages (pyJoin "\n" sc.2)), ?_⟩
            simp only [routeKey]
            rw [if_neg h1, if_neg h2, if_neg h3, if_neg h4, if_pos h5]
          next h5 =>
            refine ⟨Value.vStr (pyJoin "\n" sc.2), ?_⟩
            simp only [routeKey]
            rw [if_neg h1, if_neg h2, if_neg h3, if_neg h4, if_neg h5]

theorem esdFold_keys (secs : List (String × List String)) :
    ∀ (acc : List (String × Value)) (k : String),
      k ∈ (secs.foldl esdStep acc).map Prod.fst →
      k ∈ acc.map Prod.fst ∨ ∃ p ∈ secs, k = routeKey p.1 := by
  induction secs with
  | nil => intro acc k h; left; simpa using h
  | cons sc ss ih =>
    intro acc k h
    simp only [List.foldl_cons] at h
    rcases ih (esdStep acc sc) k h with h1 | h1
    · obtain ⟨v, hv⟩ := esdStep_key acc sc
      rw [hv] at h1
      rcases dictInsert_keys_sub k acc (routeKey sc.1) v h1 with h2 | h2
      · left; exact h2
      · right; exact ⟨sc, List.mem_cons_self sc ss, h2⟩
    · obtain ⟨p, hp, hk⟩ := h1
      right
      exact ⟨p, List.mem_cons_of_mem sc hp, hk⟩

theorem esdFold_keeps (secs : List (String × List String)) :
    ∀ (acc : List (String × Value)) (k : String), k ∈ acc.map Prod.fst →
      k ∈ (secs.foldl esdStep acc).map Prod.fst := by
  induction secs with
  | nil => intro acc k h; simpa using h
  | cons sc ss ih =>
    intro acc k h
    simp only [List.foldl_cons]
    obtain ⟨v, hv⟩ := esdStep_key acc sc
    rw [hv]
    exact ih _ k (dictInsert_keys_keep k acc (routeKey sc.1) v h)

theorem alAppendLine_head (a : String) (b : List String)
    (rest : List (String × List String)) (k line : String) :
    ∃ ls2 rest2, alAppendLine ((a, b) :: rest) k line = (a, ls2) :: rest2 := by
  unfold alAppendLine
  split
  · exact ⟨b ++ [line], rest, rfl⟩
  · exact ⟨b, alAppendLine rest k line, rfl⟩

theorem segStep_head (st : SegState) (line : String) (ls : List String)
    (rest : List (String × List String))
    (h : st.sections = ("GENERAL INFORMATION", ls) :: rest) :
    ∃ ls2 rest2,
      (segStep st line).sections = ("GENERAL INFORMATION", ls2) :: rest2 := by
  simp only [segStep]
  split
  · unfold alEnsure
    split
    · exact ⟨ls, rest, h⟩
    · rw [h]
      exact ⟨ls, rest ++ [(resolveName line, [])], by simp⟩
  · have hens : alEnsure st.sections st.current = ("GENERAL INFORMATION", ls) ::
        (if alHasKey st.sections st.current then rest
          else rest ++ [(st.current, [])]) := by
      unfold alEnsure
      split
      · simpa using h
      · rw [h]; simp
    rw [hens]
    exact alAppendLine_head _ _ _ _ _

theorem segFold_head (lines : List String) :
    ∀ (st : SegState) (ls : List String) (rest : List (String × List String)),
      st.sections = ("GENERAL INFORMATION", ls) :: rest →
      ∃ ls2 rest2,
        ((lines.foldl segStep st).sections) = ("GENERAL INFORMATION", ls2) :: rest2 := by
  induction lines with
  | nil => intro st ls rest h; exact ⟨ls, rest, h⟩
  | cons x xs ih =>
    intro st ls rest h
    simp only [List.foldl_cons]
    obtain ⟨ls2, rest2, h2⟩ := segStep_head st x ls rest h
    exact ih (segStep st x) ls2 rest2 h2

theorem identify_sections_head (text : String) :
    ∃ ls rest, identify_sections text = ("GENERAL INFORMATION", ls) :: rest := by
  unfold identify_sections
  exact segFold_head (pyLines text) _ [] [] rfl

/-- C2 (amended): every key of the structured record derives, through the
dispatch chain, from a section present in the input mapping; but the record
is never key-free for outputs of `identify_sections` — it always contains
`general_information`, because `identify_sections` unconditionally creates
the GENERAL INFORMATION section (with an empty line list) even for an empty
document. -/
theorem c2_record_keys :
    ∀ text,
      (∀ k ∈ (extract_structured_data (identify_sections text)).map Prod.fst,
        ∃ p ∈ identify_sections text, k = routeKey p.1) ∧
      "general_information" ∈
        (extract_structured_data (identify_sections text)).map Prod.fst := by
  intro text
  constructor
  · intro k hk
    rcases esdFold_keys (identify_sections text) [] k hk with h | h
    · simp at h
    · exact h
  · obtain ⟨ls, rest, heq⟩ := identify_sections_head text
    unfold extract_structured_data
    rw [heq]
    simp only [List.foldl_cons]
    have hstep : esdStep [] ("GENERAL INFORMATION", ls) =
        [("general_information", Value.vStr (pyJoin "\n" ls))] := by
      simp only [esdStep]
      rw [if_neg (by decide), if_neg (by decide), if_neg (by decide),
        if_neg (by decide), if_neg (by decide)]
      have hslug : slugKey "GENERAL INFORMATION" = "general_information" := by decide
      rw [hslug]
      rfl
    rw [hstep]
    exact esdFold_keeps rest _ "general_information" (by simp)

/-- Witness for C2 on a skills-only document. -/
theorem c2_record_keys_witness :
    (∃ p ∈ identify_sections "SKILLS\nPython", "skills" = routeKey p.1) ∧
    "general_information" ∈
      (extract_structured_data (identify_sections "SKILLS\nPython")).map Prod.fst := by
  obtain ⟨h1, h2⟩ := c2_record_keys "SKILLS\nPython"
  exact ⟨h1 "skills" (by decide), h2⟩

/-- C2 counterexample: on the empty document no section content or header is
found at all, yet the structured record is not empty - it carries the fixed
key `general_information` (with empty raw text). -/
theorem c2_counterexample :
    pyLines "" = [] ∧
    extract_structured_data (identify_sections "") =
      [("general_information", Value.vStr "")] ∧
    extract_structured_data (identify_sections "") ≠ [] := by
  refine ⟨by decide, by decide, by decide⟩
